import Mathlib

/-!
Formal model of KSmoothDock's dock panel layout and animation engine
(`src/view/dock_panel.cc`), as a shallow embedding.

C++ `int` values are modelled as `ℤ` (or `ℕ` where values are counts).
C++ integer division truncates toward zero; every division appearing in
the modelled code has a non-negative numerator and a positive denominator
under the stated preconditions, where truncation agrees with `Int`
floor division `/`, except for the animation interpolation where
`Int.tdiv` is used to mirror C++ exactly.
-/

namespace ksmoothdock

/-! ### Parabolic size profile (DockPanel::parabolic, dock_panel.cc:1225-1233)

    int DockPanel::parabolic(int x) {
      // Assume x >= 0.
      if (x > parabolicMaxX_) {
        return minSize_;
      } else {
        return maxSize_ -
            (x * x * (maxSize_ - minSize_)) / (parabolicMaxX_ * parabolicMaxX_);
      }
    }
-/

def parabolic (minSize maxSize parabolicMaxX : ℤ) (x : ℤ) : ℤ :=
  if x > parabolicMaxX then minSize
  else maxSize - x * x * (maxSize - minSize) / (parabolicMaxX * parabolicMaxX)

/-- Reference definition of the size-from-distance function, written from the
spec's words (spec §4.2): `size(0) = maxSize`;
`size(d) = maxSize − d² × (maxSize − minSize) / maxDistance²` for
`0 ≤ d ≤ maxDistance`; `size(d) = minSize` for `d > maxDistance`. -/
def sizeSpec (minSize maxSize maxDistance : ℤ) (d : ℤ) : ℤ :=
  if d ≤ maxDistance then
    maxSize - d * d * (maxSize - minSize) / (maxDistance * maxDistance)
  else minSize

/-! ### Hit testing (DockPanel::findActiveItem, dock_panel.cc:1174-1182)

    int i = 0;
    while (i < itemCount() && items_[i]->left_ < x) { ++i; }
    return i - 1;

The item coordinates along the magnification axis (`left_` for a horizontal
panel, `top_` for a vertical one) are passed as a list; the while loop stops
at the first item whose leading edge is not `< x`, which is exactly the
length of the longest `< x` prefix. -/

def findActiveItem (coords : List ℤ) (x : ℤ) : ℤ :=
  ((coords.takeWhile (fun v => decide (v < x))).length : ℤ) - 1

/-- DockPanel::showTooltip(int x, int y) (dock_panel.cc:1184-1193): `some i`
models showing the tooltip of item `i`, `none` models `tooltip_.hide()`. -/
def showTooltip (coords : List ℤ) (x : ℤ) : Option ℤ :=
  if findActiveItem coords x < 0 ∨ findActiveItem coords x ≥ (coords.length : ℤ)
  then none else some (findActiveItem coords x)

/-- DockPanel::mousePressEvent (dock_panel.cc:445-456): returns `some i` when
the press is dispatched to `items_[i]->mousePressEvent(e)`, `none` when the
event is dropped (animation active, or index out of range). -/
def mousePressEvent (isAnimationActive : Bool) (coords : List ℤ) (x : ℤ) :
    Option ℤ :=
  if isAnimationActive then none
  else
    if findActiveItem coords x < 0 ∨ findActiveItem coords x ≥ (coords.length : ℤ)
    then none else some (findActiveItem coords x)

/-! ### Refresh / pruning (DockPanel::refresh, dock_panel.cc:181-189)

    for (int i = 0; i < itemCount(); ++i) {
      if (items_[i]->shouldBeRemoved()) {
        items_.erase(items_.begin() + i);
        resizeTaskManager();
        return;
      }
    }

The C++ member function returns void; its observable effect besides the
erasure is the `resizeTaskManager()` re-layout call, issued exactly when an
item was removed. The model returns the new item list together with that
removal/re-layout indication. `shouldBeRemoved` is an item capability whose
implementation lives outside `dock_panel.cc`; it is abstracted as the
predicate `p`. -/

def refresh {α : Type} (p : α → Bool) : List α → List α × Bool
  | [] => ([], false)
  | x :: xs =>
    if p x then (xs, true)
    else
      let r := refresh p xs
      (x :: r.1, r.2)

/-! ### Rest layout and panel length (DockPanel::initLayoutVars,
dock_panel.cc:805-822, and the rest-layout loop of DockPanel::updateLayout(),
dock_panel.cc:839-859)

    minWidth_ = 0;
    for (const auto& item : items_) {
      minWidth_ += (item->getMinWidth() + itemSpacing_);
    }

and, per item, along the magnification axis (horizontal shown; the vertical
branch is identical with `top_`/`getMinHeight`):

    items_[i]->left_ = (i == 0) ? itemSpacing_ / 2
        : items_[i - 1]->left_ + items_[i - 1]->getMinWidth() + itemSpacing_;

`minWidths` is the list of the items' minimum sizes along that axis. -/

def initMinWidth (minWidths : List ℤ) (itemSpacing : ℤ) : ℤ :=
  minWidths.foldl (fun acc w => acc + (w + itemSpacing)) 0

def restLeftsFrom (itemSpacing : ℤ) (pos : ℤ) : List ℤ → List ℤ
  | [] => []
  | w :: ws => pos :: restLeftsFrom itemSpacing (pos + w + itemSpacing) ws

def restLefts (minWidths : List ℤ) (itemSpacing : ℤ) : List ℤ :=
  restLeftsFrom itemSpacing (itemSpacing / 2) minWidths

/-! ### Animation tick (DockPanel::updateAnimation, dock_panel.cc:245-267)

    for (const auto& item : items_) {
      item->nextAnimationStep();
    }
    ++currentAnimationStep_;
    backgroundWidth_ = startBackgroundWidth_
        + (endBackgroundWidth_ - startBackgroundWidth_)
            * currentAnimationStep_ / numAnimationSteps_;
    backgroundHeight_ = startBackgroundHeight_
        + (endBackgroundHeight_ - startBackgroundHeight_)
            * currentAnimationStep_ / numAnimationSteps_;
    if (currentAnimationStep_ == numAnimationSteps_) {
      animationTimer_->stop();
      isAnimationActive_ = false;
      ...
    }

C++ `int` division truncates toward zero (`Int.tdiv`). An item's
`nextAnimationStep` is implemented outside `dock_panel.cc`; it is modelled
from the spec (§4.4): the item keeps its own step counter in lockstep with
the panel's (it is ticked once per `updateAnimation` call) and every
interpolated value follows `current = start + (end − start) × step / totalSteps`.
The finalization side effects at the last step (stopping the timer, the
tooltip request, the `updateLayout()` call of a leaving transition whose end
values are that same rest layout) do not change the interpolated values
before they are reported, and are not part of this model. -/

def interpolate (start stop : ℤ) (step numAnimationSteps : ℕ) : ℤ :=
  start + Int.tdiv ((stop - start) * (step : ℤ)) (numAnimationSteps : ℤ)

structure ItemAnim where
  size : ℤ
  left : ℤ
  top : ℤ
  startSize : ℤ
  endSize : ℤ
  startLeft : ℤ
  endLeft : ℤ
  startTop : ℤ
  endTop : ℤ

/-- Modelled from the spec: `DockItem::nextAnimationStep` (not under
`dock_panel.cc`) — each of the item's interpolated values (size, left, top)
is set to `start + (end − start) × step / totalSteps` at the given step. -/
def nextAnimationStep (step numAnimationSteps : ℕ) (it : ItemAnim) : ItemAnim :=
  { it with
    size := interpolate it.startSize it.endSize step numAnimationSteps
    left := interpolate it.startLeft it.endLeft step numAnimationSteps
    top := interpolate it.startTop it.endTop step numAnimationSteps }

structure PanelAnim where
  numAnimationSteps : ℕ
  currentAnimationStep : ℕ
  isAnimationActive : Bool
  startBackgroundWidth : ℤ
  endBackgroundWidth : ℤ
  backgroundWidth : ℤ
  startBackgroundHeight : ℤ
  endBackgroundHeight : ℤ
  backgroundHeight : ℤ
  items : List ItemAnim

def updateAnimation (st : PanelAnim) : PanelAnim :=
  let step := st.currentAnimationStep + 1
  { st with
    items := st.items.map (nextAnimationStep step st.numAnimationSteps)
    currentAnimationStep := step
    backgroundWidth :=
      interpolate st.startBackgroundWidth st.endBackgroundWidth step
        st.numAnimationSteps
    backgroundHeight :=
      interpolate st.startBackgroundHeight st.endBackgroundHeight step
        st.numAnimationSteps
    isAnimationActive :=
      if step = st.numAnimationSteps then false else st.isAnimationActive }

/-! ### Task insertion (DockPanel::addTask, dock_panel.cc:715-745)

    // Checks is the task already exists.
    for (auto& item : items_) {
      if (item->hasTask(task.wId)) { return; }
    }
    // Tries adding the task to existing programs.
    for (auto& item : items_) {
      if (item->addTask(task)) { return; }
    }
    // Adds a new program.
    auto app = model_->findApplication(task.command);
    const QString& command = app ? app->taskCommand : task.command;
    int i = 0;
    for (; i < itemCount() && items_[i]->beforeTask(command); ++i);
    items_.insert(items_.begin() + i, std::make_unique<Program>(...));
    items_[i]->addTask(task);

The item-level capabilities (`hasTask`, `addTask`, `beforeTask`) are
implemented outside `dock_panel.cc` and are modelled from the spec (§4.1):
`hasTask wId` holds when the item owns that window id; item-level `addTask`
succeeds exactly on a program-backed item whose launch command matches the
task's command, appending the task; `beforeTask` is an abstract stable
"before" comparator carried by each item. -/

structure TaskInfo where
  wId : ℕ
  command : String
  program : String

structure DockApp where
  name : String
  icon : String
  command : String
  taskCommand : String

structure DockItemM where
  tasks : List ℕ
  pinned : Bool
  isProgram : Bool
  launchCommand : String
  label : String
  icon : String
  beforeCmd : String → Bool

instance : Inhabited DockItemM :=
  ⟨{ tasks := [], pinned := false, isProgram := false, launchCommand := "",
     label := "", icon := "", beforeCmd := fun _ => false }⟩

/-- Modelled from the spec: item-level `Program::addTask` acceptance — a
program-backed item with matching launch command takes the task. -/
def acceptsTask (it : DockItemM) (task : TaskInfo) : Bool :=
  it.isProgram && it.launchCommand == task.command

/-- Second loop of `DockPanel::addTask`: attach the task to the first item
that accepts it; `none` when no item does. -/
def attachTask (task : TaskInfo) : List DockItemM → Option (List DockItemM)
  | [] => none
  | it :: rest =>
    if acceptsTask it task then
      some ({ it with tasks := it.tasks ++ [task.wId] } :: rest)
    else (attachTask task rest).map (it :: ·)

/-- The new program-backed item built by `DockPanel::addTask` (dock_panel.cc:
735-743): from the application-registry entry when the task's command is a
known application, otherwise synthesized from the task itself with the
generic "xapp" icon. The new item is unpinned and starts without tasks; its
`beforeCmd` comparator is irrelevant to the insertion. -/
def newProgram (app : Option DockApp) (task : TaskInfo) : DockItemM :=
  match app with
  | some a =>
    { tasks := [], pinned := false, isProgram := true,
      launchCommand := a.taskCommand, label := a.name, icon := a.icon,
      beforeCmd := fun _ => false }
  | none =>
    { tasks := [], pinned := false, isProgram := true,
      launchCommand := task.command, label := task.program, icon := "xapp",
      beforeCmd := fun _ => false }

def addTask (findApplication : String → Option DockApp)
    (items : List DockItemM) (task : TaskInfo) : List DockItemM :=
  if items.any (fun it => it.tasks.contains task.wId) then items
  else
    match attachTask task items with
    | some items2 => items2
    | none =>
      let app := findApplication task.command
      let command := match app with
        | some a => a.taskCommand
        | none => task.command
      let i := (items.takeWhile (fun it => it.beforeCmd command)).length
      let inserted := items.insertIdx i
        { newProgram app task with tasks := [task.wId] }
      inserted

/-! ### Empty-collection entry of the pointer-driven layout
(DockPanel::updateLayout(int x, int y), dock_panel.cc:934-940)

    int first_update_index = -1;
    int last_update_index = 0;
    if (isHorizontal()) {
      items_[0]->left_ = itemSpacing_ / 2;
    } else {  // Vertical
      items_[0]->top_ = itemSpacing_ / 2;
    }

The write to `items_[0]` is unguarded; on an empty item vector it is an
out-of-bounds access, modelled as `none`. -/

def setFirstCoord (coords : List ℤ) (v : ℤ) : Option (List ℤ) :=
  match coords with
  | [] => none
  | _ :: rest => some (v :: rest)

def updateLayoutPointerEntry (coords : List ℤ) (itemSpacing : ℤ) :
    Option (List ℤ) :=
  setFirstCoord coords (itemSpacing / 2)

/-! ### Pointer-driven layout (DockPanel::updateLayout(int x, int y),
dock_panel.cc:934-995), uniform items

All real items of the task area are built with the configured
`minSize_`/`maxSize_`, so the model takes every item's minimum size along
the magnification axis to be `minSize_` and its current width to be its
current `size_`, as in the spec's data model (§3, §4.3). The horizontal
branch is shown in the comments; the vertical branch of the source is
textually identical with `top_`/`getMinHeight`/`maxHeight_`, so a single
coordinate function models the leading edge along the magnification axis
for both orientations.

Parameters: `m` = minSize_, `M` = maxSize_, `s` = itemSpacing_, `p` = the
effective pointer coordinate. The source computes each distance as
`std::abs(items_[i]->minCenter_ - x + (width() - minWidth_) / 2)`; the model
folds the constant shift into `p`, so quantifying over all `p : ℤ` covers
every mouse coordinate and widget width. -/

/-- parabolicMaxX_ = static_cast<int>(2.5 * (minSize_ + itemSpacing_))
(dock_panel.cc:777); the cast truncates the non-negative value. -/
def parabolicMaxX (m s : ℤ) : ℤ := 5 * (m + s) / 2

/-- Rest-layout position of item `i` along the magnification axis
(dock_panel.cc:839-852 with every `getMinWidth()` equal to `m`):
`left_0 = itemSpacing_/2`, `left_i = left_(i-1) + minWidth + itemSpacing_`. -/
def restLeft (m s : ℤ) : ℕ → ℤ
  | 0 => s / 2
  | i + 1 => restLeft m s i + m + s

/-- minCenter_ = left_ + getMinWidth() / 2 (dock_panel.cc:845). -/
def minCenter (m s : ℤ) (i : ℕ) : ℤ := restLeft m s i + m / 2

/-- Distance of item `i` to the effective pointer coordinate
(dock_panel.cc:944). -/
def distTo (m s p : ℤ) (i : ℕ) : ℤ := |minCenter m s i - p|

/-- items_[i]->size_ = parabolic(delta) (dock_panel.cc:954). -/
def itemSizeAt (m M s p : ℤ) (i : ℕ) : ℤ :=
  parabolic m M (parabolicMaxX m s) (distTo m s p i)

/-- Forward pass (dock_panel.cc:937, 964-972): `left_0 = itemSpacing_/2`,
`left_i = left_(i-1) + items_[i-1]->getWidth() + itemSpacing_` with the
current (possibly magnified) sizes. -/
def fwdLeft (m M s p : ℤ) : ℕ → ℤ
  | 0 => s / 2
  | i + 1 => fwdLeft m M s p i + itemSizeAt m M s p i + s

/-- The `(first_update_index, last_update_index)` scan of
dock_panel.cc:934-953: both start as `(-1, 0)`; each index whose distance is
`< parabolicMaxX_` sets `first_update_index` if still unset and always sets
`last_update_index`. `none` models `-1`. -/
def scanStep (m s p : ℤ) (fl : Option ℕ × ℕ) (i : ℕ) : Option ℕ × ℕ :=
  if distTo m s p i < parabolicMaxX m s then
    (match fl.1 with
     | none => some i
     | some f => some f, i)
  else fl

def scanUpd (m s p : ℤ) (n : ℕ) : Option ℕ × ℕ :=
  (List.range n).foldl (scanStep m s p) (none, 0)

/-- minWidth_ for `n` uniform items (dock_panel.cc:806-809). -/
def minWidthU (m s : ℤ) (n : ℕ) : ℤ :=
  (List.range n).foldl (fun acc _ => acc + (m + s)) 0

/-- The `delta` of DockPanel::initLayoutVars (dock_panel.cc:786-803), the
difference between the minimized and maximized panel length, with
`distance = minSize_ + itemSpacing_`. -/
def layoutDelta (m M s : ℤ) (n : ℕ) : ℤ :=
  if 5 ≤ n then
    parabolic m M (parabolicMaxX m s) 0
      + 2 * parabolic m M (parabolicMaxX m s) (m + s)
      + 2 * parabolic m M (parabolicMaxX m s) (2 * (m + s)) - 5 * m
  else if n = 4 then
    parabolic m M (parabolicMaxX m s) 0
      + 2 * parabolic m M (parabolicMaxX m s) (m + s)
      + parabolic m M (parabolicMaxX m s) (2 * (m + s)) - 4 * m
  else if n = 3 then
    parabolic m M (parabolicMaxX m s) 0
      + 2 * parabolic m M (parabolicMaxX m s) (m + s) - 3 * m
  else if n = 2 then
    parabolic m M (parabolicMaxX m s) 0
      + parabolic m M (parabolicMaxX m s) (m + s) - 2 * m
  else if n = 1 then
    parabolic m M (parabolicMaxX m s) 0 - m
  else 0

/-- maxWidth_ = minWidth_ + delta (dock_panel.cc:811). -/
def maxWidthU (m M s : ℤ) (n : ℕ) : ℤ := minWidthU m s n + layoutDelta m M s n

/-- Backward anchoring pass (dock_panel.cc:974-984), walking from the far
edge with minimum sizes: position of the item `k` places before the last
one. `left_(n-1) = maxWidth_ - itemSpacing_/2 - getMinWidth()`, then
`left_i = left_(i+1) - getMinWidth() - itemSpacing_`. -/
def bwdFromEnd (m M s : ℤ) (n : ℕ) : ℕ → ℤ
  | 0 => maxWidthU m M s n - s / 2 - m
  | k + 1 => bwdFromEnd m M s n k - m - s

def bwdLeft (m M s : ℤ) (n i : ℕ) : ℤ := bwdFromEnd m M s n (n - 1 - i)

/-- Correction pass (dock_panel.cc:985-995), walking back from the anchored
item `l+1` with the current magnified sizes: `corrDrop t` is the final
position of index `l + 1 - t`, starting from `start` (the backward-anchored
position of index `l+1`):
`left_i = left_(i+1) - items_[i]->getWidth() - itemSpacing_`. -/
def corrDrop (m M s p : ℤ) (start : ℤ) (l : ℕ) : ℕ → ℤ
  | 0 => start
  | t + 1 => corrDrop m M s p start l t - itemSizeAt m M s p (l - t) - s

/-- Final leading-edge coordinate of item `i` after the three passes of
DockPanel::updateLayout(int x, int y): the forward pass writes every
position; the backward pass overwrites indices `last_update_index + 1` to
`n-1`; when `first_update_index == 0 && last_update_index < itemCount() - 1`
the correction pass overwrites indices `0` to `last_update_index`. -/
def finalLeft (m M s p : ℤ) (n i : ℕ) : ℤ :=
  let fl := scanUpd m s p n
  let l := fl.2
  if fl.1 = some 0 ∧ l < n - 1 then
    if i ≤ l then corrDrop m M s p (bwdLeft m M s n (l + 1)) l (l + 1 - i)
    else bwdLeft m M s n i
  else
    if i ≤ l then fwdLeft m M s p i
    else bwdLeft m M s n i

/-! ## Theorems -/

/-! ### Parabolic profile: basic lemmas -/

lemma parabolic_of_le {m M T x : ℤ} (hx : x ≤ T) :
    parabolic m M T x = M - x * x * (M - m) / (T * T) := by
  unfold parabolic
  rw [if_neg (not_lt.mpr hx)]

lemma parabolic_of_gt {m M T x : ℤ} (hx : T < x) : parabolic m M T x = m := by
  unfold parabolic
  rw [if_pos hx]

lemma parabolic_zero {m M T : ℤ} (hT : 0 < T) : parabolic m M T 0 = M := by
  rw [parabolic_of_le (le_of_lt hT)]
  simp

lemma quad_div_nonneg {m M T x : ℤ} (hmM : m ≤ M) :
    0 ≤ x * x * (M - m) / (T * T) :=
  Int.ediv_nonneg
    (mul_nonneg (mul_self_nonneg x) (by omega))
    (mul_self_nonneg T)

lemma quad_div_le {m M T x : ℤ} (hmM : m ≤ M) (hT : 0 < T) (hx0 : 0 ≤ x)
    (hx : x ≤ T) : x * x * (M - m) / (T * T) ≤ M - m := by
  have h1 : x * x * (M - m) ≤ T * T * (M - m) := by
    apply mul_le_mul_of_nonneg_right _ (by omega)
    exact mul_le_mul hx hx hx0 (le_of_lt hT)
  calc x * x * (M - m) / (T * T) ≤ T * T * (M - m) / (T * T) :=
        Int.ediv_le_ediv (mul_pos hT hT) h1
    _ = M - m := Int.mul_ediv_cancel_left _ (by positivity)

lemma min_le_parabolic {m M T x : ℤ} (hmM : m ≤ M) (hT : 0 < T)
    (hx0 : 0 ≤ x) : m ≤ parabolic m M T x := by
  rcases le_or_lt x T with h | h
  · rw [parabolic_of_le h]
    have := quad_div_le (x := x) hmM hT hx0 h
    omega
  · rw [parabolic_of_gt h]

lemma parabolic_le_max {m M T x : ℤ} (hmM : m ≤ M) (hx0 : 0 ≤ x) :
    parabolic m M T x ≤ M := by
  rcases le_or_lt x T with h | h
  · rw [parabolic_of_le h]
    have := quad_div_nonneg (m := m) (M := M) (T := T) (x := x) hmM
    omega
  · rw [parabolic_of_gt h]
    exact hmM

lemma parabolic_at_boundary {m M T : ℤ} (hmM : m ≤ M) (hT : 0 < T) :
    parabolic m M T T = m := by
  rw [parabolic_of_le le_rfl, Int.mul_ediv_cancel_left _ (by positivity)]
  omega

lemma parabolic_anti {m M T x1 x2 : ℤ} (hmM : m ≤ M) (hT : 0 < T)
    (h0 : 0 ≤ x1) (h12 : x1 ≤ x2) :
    parabolic m M T x2 ≤ parabolic m M T x1 := by
  rcases le_or_lt x2 T with h2 | h2
  · rw [parabolic_of_le h2, parabolic_of_le (le_trans h12 h2)]
    have hnum : x1 * x1 * (M - m) ≤ x2 * x2 * (M - m) := by
      apply mul_le_mul_of_nonneg_right _ (by omega)
      exact mul_le_mul h12 h12 h0 (by omega)
    have := Int.ediv_le_ediv (mul_pos hT hT) hnum
    omega
  · rw [parabolic_of_gt h2]
    exact min_le_parabolic hmM hT h0

lemma parabolic_eq_min_of_ge {m M T x : ℤ} (hmM : m ≤ M) (hT : 0 < T)
    (hx : T ≤ x) : parabolic m M T x = m := by
  rcases lt_or_eq_of_le hx with h | h
  · exact parabolic_of_gt h
  · rw [← h]
    exact parabolic_at_boundary hmM hT

/-- C1: the parabolic size function satisfies its reference definition:
`size(0) = maxSize`, `size(d) = maxSize − d²×(maxSize−minSize)/maxDistance²`
for `0 ≤ d ≤ maxDistance`, and `size(d) = minSize` for `d > maxDistance`,
all with the integer arithmetic of the implementation, under the
preconditions `maxSize ≥ minSize` and `maxDistance > 0`. -/
theorem c1_parabolic_matches_reference (m M T : ℤ) (hmM : m ≤ M)
    (hT : 0 < T) :
    parabolic m M T 0 = M ∧ ∀ d : ℤ, 0 ≤ d → parabolic m M T d = sizeSpec m M T d := by
  refine ⟨parabolic_zero hT, fun d _ => ?_⟩
  unfold sizeSpec
  rcases le_or_lt d T with h | h
  · rw [parabolic_of_le h, if_pos h]
  · rw [parabolic_of_gt h, if_neg (not_le.mpr h)]

/-- Witness for C1 at `minSize = 48`, `maxSize = 64`, `maxDistance = 180`
(the configuration-derived value `⌊2.5 × (48 + 24)⌋`). -/
theorem c1_witness :
    parabolic 48 64 180 0 = 64 ∧ parabolic 48 64 180 90 = sizeSpec 48 64 180 90 :=
  ⟨(c1_parabolic_matches_reference 48 64 180 (by decide) (by decide)).1,
   (c1_parabolic_matches_reference 48 64 180 (by decide) (by decide)).2 90
     (by decide)⟩

/-- C2, counterexample: with `minSize = 48 < maxSize = 64` and
`maxDistance = 180 > 0` (the value derived from spacing 24), the function is
NOT strictly decreasing on `[0, maxDistance]`: distances `0 < 1 ≤ 180` give
the same size, because `1 × 16 / 32400` truncates to `0`. -/
theorem c2_counterexample :
    (48 : ℤ) < 64 ∧ (0 : ℤ) < 180 ∧ (0 : ℤ) < 1 ∧ (1 : ℤ) ≤ 180 ∧
    parabolic 48 64 180 0 = parabolic 48 64 180 1 := by decide

/-- C2 (amended): under integer arithmetic the parabolic size function is
monotone nonincreasing — for all `0 ≤ d1 ≤ d2`, `size(d1) ≥ size(d2)` — but
only weakly so (strict decrease on `[0, maxDistance]` fails, see the
counterexample); it is continuous at the boundary, i.e. its value at
`distance = maxDistance` equals `minSize` exactly, and `size(0) = maxSize`
(preconditions `maxSize > minSize`, `maxDistance > 0`). -/
theorem c2_parabolic_monotone (m M T : ℤ) (hmM : m < M) (hT : 0 < T) :
    (∀ d1 d2 : ℤ, 0 ≤ d1 → d1 ≤ d2 →
      parabolic m M T d2 ≤ parabolic m M T d1) ∧
    parabolic m M T T = m ∧ parabolic m M T 0 = M :=
  ⟨fun _ _ h0 h12 => parabolic_anti (le_of_lt hmM) hT h0 h12,
   parabolic_at_boundary (le_of_lt hmM) hT, parabolic_zero hT⟩

/-- Witness for the amended C2 at `minSize = 48`, `maxSize = 64`,
`maxDistance = 180`, distances `10 ≤ 2000`. -/
theorem c2_witness :
    parabolic 48 64 180 2000 ≤ parabolic 48 64 180 10 ∧
    parabolic 48 64 180 180 = 48 ∧ parabolic 48 64 180 0 = 64 :=
  ⟨(c2_parabolic_monotone 48 64 180 (by decide) (by decide)).1 10 2000
     (by decide) (by decide),
   (c2_parabolic_monotone 48 64 180 (by decide) (by decide)).2.1,
   (c2_parabolic_monotone 48 64 180 (by decide) (by decide)).2.2⟩

/-! ### Hit testing, tooltip, mouse press -/

lemma takeWhile_len_le {α : Type} (p : α → Bool) :
    ∀ l : List α, (l.takeWhile p).length ≤ l.length
  | [] => by simp
  | x :: xs => by
    by_cases h : p x
    · rw [List.takeWhile_cons_of_pos h]
      simpa using takeWhile_len_le p xs
    · rw [List.takeWhile_cons_of_neg (by simpa using h)]
      simp

lemma findActiveItem_ge_neg_one (coords : List ℤ) (x : ℤ) :
    -1 ≤ findActiveItem coords x := by
  unfold findActiveItem
  omega

lemma findActiveItem_lt_length (coords : List ℤ) (x : ℤ) :
    findActiveItem coords x < (coords.length : ℤ) := by
  unfold findActiveItem
  have := takeWhile_len_le (fun v => decide (v < x)) coords
  omega

/-- C8, counterexample: a pointer coordinate beyond the last item does NOT
yield the "no item" sentinel: on a two-item dock with leading edges 10 and
20, pointer coordinate 1000 hit-tests to index 1 (the last item, a valid
index) and the tooltip request shows that item instead of hiding. -/
theorem c8_counterexample :
    findActiveItem [10, 20] 1000 ≠ -1 ∧ findActiveItem [10, 20] 1000 = 1 ∧
    showTooltip [10, 20] 1000 ≠ none := by decide

/-- C8 (amended): the hit test returns the sentinel `-1` exactly when the
collection is empty or the pointer coordinate is at or before the first
item's leading edge; exactly in those cases the tooltip request degrades to
hiding the tooltip. The result is always `< itemCount`, and a pointer beyond
the last item maps to the last valid index rather than the sentinel. -/
theorem c8_sentinel_and_tooltip (coords : List ℤ) (x : ℤ) :
    (findActiveItem coords x = -1 ↔
      coords = [] ∨ ∃ v, coords.head? = some v ∧ x ≤ v) ∧
    (showTooltip coords x = none ↔ findActiveItem coords x = -1) ∧
    findActiveItem coords x < (coords.length : ℤ) := by
  have hge := findActiveItem_ge_neg_one coords x
  have hlt := findActiveItem_lt_length coords x
  refine ⟨?_, ?_, ?_⟩
  · cases coords with
    | nil => simp [findActiveItem]
    | cons v rest =>
      unfold findActiveItem
      rcases lt_or_le v x with h | h
      · rw [List.takeWhile_cons_of_pos (by simpa using h)]
        simp only [List.length_cons]
        constructor
        · intro hcontra
          omega
        · rintro (hcontra | ⟨w, hw, hxw⟩)
          · exact absurd hcontra (by simp)
          · simp only [List.head?_cons, Option.some.injEq] at hw
            omega
      · rw [List.takeWhile_cons_of_neg (by simpa using not_lt.mpr h)]
        simp only [List.length_nil]
        refine ⟨fun _ => Or.inr ⟨v, rfl, h⟩, fun _ => by norm_num⟩
  · unfold showTooltip
    by_cases hcond : findActiveItem coords x < 0 ∨
        findActiveItem coords x ≥ (coords.length : ℤ)
    · rw [if_pos hcond]
      exact ⟨fun _ => by omega, fun _ => rfl⟩
    · rw [if_neg hcond]
      push_neg at hcond
      exact ⟨fun h => absurd h (Option.some_ne_none _), fun h => by omega⟩
  · exact hlt

/-- C10: while a zoom animation is active every mouse-press event is
suppressed (no item handler is invoked); otherwise the press is dispatched
exactly to the hit-tested index and only when that index is within bounds
`0 ≤ i < itemCount`, so an out-of-range index never causes an item
access. -/
theorem c10_press_guarded (active : Bool) (coords : List ℤ) (x : ℤ) :
    (active = true → mousePressEvent active coords x = none) ∧
    (∀ i : ℤ, mousePressEvent active coords x = some i →
      0 ≤ i ∧ i < (coords.length : ℤ)) := by
  constructor
  · intro h
    simp [mousePressEvent, h]
  · intro i hi
    cases active with
    | true => simp [mousePressEvent] at hi
    | false =>
      simp only [mousePressEvent, Bool.false_eq_true, if_false] at hi
      by_cases hguard : findActiveItem coords x < 0 ∨
          findActiveItem coords x ≥ (coords.length : ℤ)
      · rw [if_pos hguard] at hi
        exact absurd hi (Option.some_ne_none _).symm
      · rw [if_neg hguard] at hi
        push_neg at hguard
        have hfi : findActiveItem coords x = i := by
          injection hi
        omega

/-- Witness for C10: on a one-item dock, a press during animation is
dropped, and a dispatched press (pointer past the item's leading edge, no
animation) goes to the in-bounds index 0. -/
theorem c10_witness :
    mousePressEvent true [10] 1000 = none ∧
    ((0 : ℤ) ≤ 0 ∧ (0 : ℤ) < (([10] : List ℤ).length : ℤ)) :=
  ⟨(c10_press_guarded true [10] 1000).1 rfl,
   (c10_press_guarded false [10] 1000).2 0 (by decide)⟩

/-! ### Refresh / pruning -/

/-- C9: `refresh` removes exactly the first item whose "should be removed"
predicate holds and keeps every other item in order — this is precisely
`List.eraseP`, which removes the first satisfying element and is the
identity when no element satisfies — and its removal/re-layout indication
reports exactly whether some item satisfied the predicate. -/
theorem c9_refresh_removes_first {α : Type} (p : α → Bool) (l : List α) :
    (refresh p l).1 = l.eraseP p ∧ (refresh p l).2 = l.any p := by
  induction l with
  | nil => simp [refresh]
  | cons x xs ih =>
    by_cases hx : p x
    · simp [refresh, hx, List.eraseP_cons]
    · simp [refresh, hx, List.eraseP_cons, ih.1, ih.2]

/-! ### Rest layout: conservation -/

lemma initMinWidth_foldl (s : ℤ) :
    ∀ (ws : List ℤ) (a : ℤ),
      ws.foldl (fun acc w => acc + (w + s)) a = a + ws.sum + ws.length * s
  | [], a => by simp
  | w :: ws, a => by
    rw [List.foldl_cons, initMinWidth_foldl s ws (a + (w + s))]
    simp only [List.sum_cons, List.length_cons]
    push_cast
    ring

lemma initMinWidth_eq (ws : List ℤ) (s : ℤ) :
    initMinWidth ws s = ws.sum + ws.length * s := by
  unfold initMinWidth
  rw [initMinWidth_foldl]
  ring

lemma restLeftsFrom_length (s : ℤ) :
    ∀ (ws : List ℤ) (pos : ℤ), (restLeftsFrom s pos ws).length = ws.length
  | [], _ => rfl
  | _ :: ws, pos => by
    simp only [restLeftsFrom, List.length_cons]
    rw [restLeftsFrom_length s ws]

lemma restLeftsFrom_getD (s : ℤ) :
    ∀ (ws : List ℤ) (pos : ℤ) (i : ℕ), i < ws.length →
      (restLeftsFrom s pos ws).getD i 0 = pos + (ws.take i).sum + i * s
  | [], _, i, hi => by simp at hi
  | w :: ws, pos, 0, _ => by
    simp [restLeftsFrom]
  | w :: ws, pos, i + 1, hi => by
    simp only [restLeftsFrom, List.getD_cons_succ]
    rw [restLeftsFrom_getD s ws (pos + w + s) i (by simpa using hi)]
    simp only [List.take_succ_cons, List.sum_cons]
    push_cast
    ring

lemma sum_take_succ_getD (ws : List ℤ) (i : ℕ) (hi : i < ws.length) :
    (ws.take (i + 1)).sum = (ws.take i).sum + ws.getD i 0 := by
  rw [List.sum_take_succ ws i hi, List.getD_eq_getElem ws 0 hi]

/-- C3: rest-layout conservation. For every item list (the bound `N ≤ 50`
included as stated), the computed minimized panel length along the
magnification axis equals the sum of the items' minimum sizes plus the total
of the `N+1` spacing margins: a half-spacing margin `s/2` before the first
item, a full spacing `s` between each adjacent pair, and the remaining
half-spacing `s - s/2` after the last item — which together amount to
`N × s`. -/
theorem c3_rest_layout_conservation (ws : List ℤ) (s : ℤ)
    (hlen : ws.length ≤ 50) :
    initMinWidth ws s = ws.sum + ws.length * s ∧
    (ws ≠ [] →
      (restLefts ws s).getD 0 0 = s / 2 ∧
      (∀ i : ℕ, i + 1 < ws.length →
        (restLefts ws s).getD (i + 1) 0 =
          (restLefts ws s).getD i 0 + ws.getD i 0 + s) ∧
      initMinWidth ws s =
        (restLefts ws s).getD (ws.length - 1) 0 +
          ws.getD (ws.length - 1) 0 + (s - s / 2)) := by
  refine ⟨initMinWidth_eq ws s, fun hne => ?_⟩
  have hlen0 : 0 < ws.length := List.length_pos.mpr hne
  refine ⟨?_, ?_, ?_⟩
  · rw [restLefts, restLeftsFrom_getD s ws (s / 2) 0 hlen0]
    simp
  · intro i hi
    rw [restLefts, restLeftsFrom_getD s ws (s / 2) (i + 1) hi,
      restLeftsFrom_getD s ws (s / 2) i (by omega),
      sum_take_succ_getD ws i (by omega)]
    push_cast
    ring
  · rw [initMinWidth_eq ws s, restLefts,
      restLeftsFrom_getD s ws (s / 2) (ws.length - 1) (by omega)]
    have htake : (ws.take (ws.length - 1)).sum + ws.getD (ws.length - 1) 0 =
        ws.sum := by
      rw [← sum_take_succ_getD ws (ws.length - 1) (by omega)]
      have : ws.length - 1 + 1 = ws.length := by omega
      rw [this, List.take_length]
    have hcast : ((ws.length - 1 : ℕ) : ℤ) = (ws.length : ℤ) - 1 := by
      omega
    rw [hcast]
    have hs : ((ws.length : ℤ) - 1) * s + s = (ws.length : ℤ) * s := by
      ring
    omega

/-- Witness for C3: three items of minimum sizes 48, 48, 40 with spacing 24:
minimized length `208 = 136 + 3 × 24`, first position `12`, neighbor step,
and the trailing margin `24 - 12`. -/
theorem c3_witness :
    initMinWidth [48, 48, 40] 24 = ([48, 48, 40] : List ℤ).sum + 3 * 24 ∧
    (restLefts [48, 48, 40] 24).getD 0 0 = 24 / 2 ∧
    (restLefts [48, 48, 40] 24).getD 1 0 =
      (restLefts [48, 48, 40] 24).getD 0 0 + ([48, 48, 40] : List ℤ).getD 0 0 + 24 ∧
    initMinWidth [48, 48, 40] 24 =
      (restLefts [48, 48, 40] 24).getD 2 0 +
        ([48, 48, 40] : List ℤ).getD 2 0 + (24 - 24 / 2) := by
  have h := c3_rest_layout_conservation [48, 48, 40] 24 (by decide)
  have h2 := h.2 (by decide)
  exact ⟨h.1, h2.1, h2.2.1 0 (by decide), h2.2.2⟩

/-! ### Animation convergence -/

lemma interpolate_final (a b : ℤ) (n : ℕ) (hn : 0 < n) :
    interpolate a b n n = b := by
  unfold interpolate
  rw [Int.mul_tdiv_cancel _ (by exact_mod_cast hn.ne' : (n : ℤ) ≠ 0)]
  ring

lemma nextAnimationStep_twice (i j n : ℕ) (it : ItemAnim) :
    nextAnimationStep j n (nextAnimationStep i n it) =
      nextAnimationStep j n it := rfl

lemma updateAnimation_iter_static (st : PanelAnim) :
    ∀ k : ℕ,
      (updateAnimation^[k] st).numAnimationSteps = st.numAnimationSteps ∧
      (updateAnimation^[k] st).startBackgroundWidth = st.startBackgroundWidth ∧
      (updateAnimation^[k] st).endBackgroundWidth = st.endBackgroundWidth ∧
      (updateAnimation^[k] st).startBackgroundHeight =
        st.startBackgroundHeight ∧
      (updateAnimation^[k] st).endBackgroundHeight = st.endBackgroundHeight ∧
      (updateAnimation^[k] st).currentAnimationStep =
        st.currentAnimationStep + k
  | 0 => by simp
  | k + 1 => by
    have ih := updateAnimation_iter_static st k
    rw [Function.iterate_succ_apply']
    obtain ⟨h1, h2, h3, h4, h5, h6⟩ := ih
    exact ⟨h1, h2, h3, h4, h5, by
      show (updateAnimation^[k] st).currentAnimationStep + 1 = _
      omega⟩

lemma updateAnimation_iter (st : PanelAnim) :
    ∀ k : ℕ, 0 < k →
      (updateAnimation^[k] st).backgroundWidth =
        interpolate st.startBackgroundWidth st.endBackgroundWidth
          (st.currentAnimationStep + k) st.numAnimationSteps ∧
      (updateAnimation^[k] st).backgroundHeight =
        interpolate st.startBackgroundHeight st.endBackgroundHeight
          (st.currentAnimationStep + k) st.numAnimationSteps ∧
      (updateAnimation^[k] st).items =
        st.items.map
          (nextAnimationStep (st.currentAnimationStep + k)
            st.numAnimationSteps)
  | 0, h0 => absurd h0 (lt_irrefl 0)
  | 1, _ => ⟨rfl, rfl, rfl⟩
  | k + 2, _ => by
    have ih := updateAnimation_iter st (k + 1) (Nat.succ_pos k)
    have hst := updateAnimation_iter_static st (k + 1)
    obtain ⟨hn, hsw, hew, hsh, heh, hcur⟩ := hst
    obtain ⟨_, _, hitems⟩ := ih
    rw [Function.iterate_succ_apply']
    refine ⟨?_, ?_, ?_⟩
    · show interpolate (updateAnimation^[k + 1] st).startBackgroundWidth
        (updateAnimation^[k + 1] st).endBackgroundWidth
        ((updateAnimation^[k + 1] st).currentAnimationStep + 1)
        (updateAnimation^[k + 1] st).numAnimationSteps = _
      rw [hn, hsw, hew, hcur]
      congr 1
    · show interpolate (updateAnimation^[k + 1] st).startBackgroundHeight
        (updateAnimation^[k + 1] st).endBackgroundHeight
        ((updateAnimation^[k + 1] st).currentAnimationStep + 1)
        (updateAnimation^[k + 1] st).numAnimationSteps = _
      rw [hn, hsh, heh, hcur]
      congr 1
    · show ((updateAnimation^[k + 1] st).items).map
        (nextAnimationStep ((updateAnimation^[k + 1] st).currentAnimationStep + 1)
          (updateAnimation^[k + 1] st).numAnimationSteps) = _
      rw [hn, hcur, hitems, List.map_map]
      have harg : st.currentAnimationStep + (k + 1) + 1 =
          st.currentAnimationStep + (k + 2) := by omega
      rw [harg]
      rfl

/-- C5: animation convergence. Each tick applies
`current = start + (end − start) × step / totalSteps` (this is the
definition of `updateAnimation` and `nextAnimationStep`), and after exactly
`totalSteps` ticks from a captured start/end pair, the background width and
height and every item's size and position equal their end values exactly,
with no residual drift, for all integer start/end values and
`totalSteps > 0`. -/
theorem c5_animation_convergence (st : PanelAnim)
    (hn : 0 < st.numAnimationSteps) (h0 : st.currentAnimationStep = 0) :
    (updateAnimation^[st.numAnimationSteps] st).currentAnimationStep =
      st.numAnimationSteps ∧
    (updateAnimation^[st.numAnimationSteps] st).backgroundWidth =
      st.endBackgroundWidth ∧
    (updateAnimation^[st.numAnimationSteps] st).backgroundHeight =
      st.endBackgroundHeight ∧
    (updateAnimation^[st.numAnimationSteps] st).items =
      st.items.map (fun it =>
        { it with size := it.endSize, left := it.endLeft, top := it.endTop }) := by
  have hstat := updateAnimation_iter_static st st.numAnimationSteps
  have hdyn := updateAnimation_iter st st.numAnimationSteps hn
  obtain ⟨_, _, _, _, _, hcur⟩ := hstat
  obtain ⟨hw, hh, hitems⟩ := hdyn
  rw [h0] at hcur hw hh hitems
  simp only [Nat.zero_add] at hcur hw hh hitems
  refine ⟨by omega, ?_, ?_, ?_⟩
  · rw [hw, interpolate_final _ _ _ hn]
  · rw [hh, interpolate_final _ _ _ hn]
  · rw [hitems]
    apply List.map_congr_left
    intro it _
    unfold nextAnimationStep
    rw [interpolate_final _ _ _ hn, interpolate_final _ _ _ hn,
      interpolate_final _ _ _ hn]

/-- Witness for C5: a two-step animation on a panel with one item, starting
at step 0; after exactly 2 ticks the background and the item's geometry equal
their end values. -/
theorem c5_witness :
    (updateAnimation^[2]
      { numAnimationSteps := 2, currentAnimationStep := 0,
        isAnimationActive := true,
        startBackgroundWidth := 100, endBackgroundWidth := 137,
        backgroundWidth := 100,
        startBackgroundHeight := 40, endBackgroundHeight := 73,
        backgroundHeight := 40,
        items := [{ size := 31, left := 5, top := 3, startSize := 31,
                    endSize := 64, startLeft := 5, endLeft := -11,
                    startTop := 3, endTop := 9 }] }).backgroundWidth = 137 ∧
    (updateAnimation^[2]
      { numAnimationSteps := 2, currentAnimationStep := 0,
        isAnimationActive := true,
        startBackgroundWidth := 100, endBackgroundWidth := 137,
        backgroundWidth := 100,
        startBackgroundHeight := 40, endBackgroundHeight := 73,
        backgroundHeight := 40,
        items := [{ size := 31, left := 5, top := 3, startSize := 31,
                    endSize := 64, startLeft := 5, endLeft := -11,
                    startTop := 3, endTop := 9 }] }).items =
      [{ size := 64, left := -11, top := 9, startSize := 31, endSize := 64,
         startLeft := 5, endLeft := -11, startTop := 3, endTop := 9 }] := by
  have h := c5_animation_convergence
    { numAnimationSteps := 2, currentAnimationStep := 0,
      isAnimationActive := true,
      startBackgroundWidth := 100, endBackgroundWidth := 137,
      backgroundWidth := 100,
      startBackgroundHeight := 40, endBackgroundHeight := 73,
      backgroundHeight := 40,
      items := [{ size := 31, left := 5, top := 3, startSize := 31,
                  endSize := 64, startLeft := 5, endLeft := -11,
                  startTop := 3, endTop := 9 }] }
    (by decide) rfl
  exact ⟨h.2.1, h.2.2.2⟩

/-! ### Task insertion -/

lemma attachTask_length (task : TaskInfo) :
    ∀ (l l2 : List DockItemM), attachTask task l = some l2 →
      l2.length = l.length
  | [], _, h => by simp [attachTask] at h
  | it :: rest, l2, h => by
    by_cases hacc : acceptsTask it task
    · rw [attachTask, if_pos hacc] at h
      injection h with h
      rw [← h]
      simp
    · rw [attachTask, if_neg hacc] at h
      cases hrest : attachTask task rest with
      | none => rw [hrest] at h; exact Option.noConfusion h
      | some r =>
        rw [hrest] at h
        simp only [Option.map_some', Option.some.injEq] at h
        rw [← h]
        simp [attachTask_length task rest r hrest]

lemma attachTask_isSome (task : TaskInfo) :
    ∀ l : List DockItemM, (∃ it ∈ l, acceptsTask it task = true) →
      ∃ l2, attachTask task l = some l2
  | [], h => by simp at h
  | it :: rest, h => by
    by_cases hacc : acceptsTask it task
    · exact ⟨_, by rw [attachTask, if_pos hacc]⟩
    · obtain ⟨w, hw, hwacc⟩ := h
      rcases List.mem_cons.mp hw with rfl | hwrest
      · exact absurd hwacc hacc
      · obtain ⟨r, hr⟩ := attachTask_isSome task rest ⟨w, hwrest, hwacc⟩
        exact ⟨it :: r, by rw [attachTask, if_neg hacc, hr]; rfl⟩

lemma attachTask_eq_none (task : TaskInfo) :
    ∀ l : List DockItemM, (∀ it ∈ l, acceptsTask it task = false) →
      attachTask task l = none
  | [], _ => rfl
  | it :: rest, h => by
    have hacc : acceptsTask it task = false := h it (List.mem_cons_self it rest)
    rw [attachTask, if_neg (by simp [hacc]),
      attachTask_eq_none task rest (fun w hw => h w (List.mem_cons_of_mem _ hw))]
    rfl

lemma takeWhile_getD_pos {α : Type} [Inhabited α] (q : α → Bool) :
    ∀ (l : List α) (j : ℕ), j < (l.takeWhile q).length →
      q (l.getD j default) = true
  | [], j, hj => by simp at hj
  | x :: xs, j, hj => by
    by_cases hx : q x
    · rw [List.takeWhile_cons_of_pos hx] at hj
      cases j with
      | zero => exact hx
      | succ j =>
        simp only [List.getD_cons_succ]
        exact takeWhile_getD_pos q xs j (by simpa using hj)
    · rw [List.takeWhile_cons_of_neg (by simpa using hx)] at hj
      simp at hj

lemma takeWhile_getD_stop {α : Type} [Inhabited α] (q : α → Bool) :
    ∀ l : List α, (l.takeWhile q).length < l.length →
      q (l.getD (l.takeWhile q).length default) = false
  | [], hk => by simp at hk
  | x :: xs, hk => by
    by_cases hx : q x
    · rw [List.takeWhile_cons_of_pos hx] at hk ⊢
      simp only [List.length_cons, List.getD_cons_succ]
      exact takeWhile_getD_stop q xs (by simpa using hk)
    · rw [List.takeWhile_cons_of_neg (by simpa using hx)] at hk ⊢
      simpa using hx

/-- C6: task insertion. If an existing item already owns the task's window
identity, `addTask` is a no-op. Otherwise, if some program-backed item with
matching launch command can take the task, no new item is created (the item
count is unchanged). Otherwise a new program-backed item is inserted exactly
at the first index `k` whose item is NOT ordered before the new command
under the item ordering rule — every item before `k` is ordered before the
command, the item at `k` (when it exists) is not — and the new item owns the
task. -/
theorem c6_addTask (findApplication : String → Option DockApp)
    (items : List DockItemM) (task : TaskInfo) (command : String)
    (hcmd : command = match findApplication task.command with
      | some a => a.taskCommand
      | none => task.command) :
    ((∃ it ∈ items, it.tasks.contains task.wId = true) →
      addTask findApplication items task = items) ∧
    ((∀ it ∈ items, it.tasks.contains task.wId = false) →
      (∃ it ∈ items, acceptsTask it task = true) →
      (addTask findApplication items task).length = items.length) ∧
    ((∀ it ∈ items, it.tasks.contains task.wId = false) →
      (∀ it ∈ items, acceptsTask it task = false) →
      addTask findApplication items task =
        items.insertIdx
          ((items.takeWhile (fun it => it.beforeCmd command)).length)
          { newProgram (findApplication task.command) task with
            tasks := [task.wId] } ∧
      (∀ j : ℕ, j < (items.takeWhile (fun it => it.beforeCmd command)).length →
        (items.getD j default).beforeCmd command = true) ∧
      ((items.takeWhile (fun it => it.beforeCmd command)).length <
          items.length →
        (items.getD
          ((items.takeWhile (fun it => it.beforeCmd command)).length)
          default).beforeCmd command = false) ∧
      task.wId ∈ ({ newProgram (findApplication task.command) task with
        tasks := [task.wId] } : DockItemM).tasks) := by
  subst hcmd
  refine ⟨?_, ?_, ?_⟩
  · intro hexists
    unfold addTask
    rw [if_pos (List.any_eq_true.mpr hexists)]
  · intro hnone hacc
    unfold addTask
    rw [if_neg (fun hany => by
      obtain ⟨it, hmem, hit⟩ := List.any_eq_true.mp hany
      rw [hnone it hmem] at hit
      exact Bool.false_ne_true hit)]
    obtain ⟨l2, hl2⟩ := attachTask_isSome task items hacc
    rw [hl2]
    exact attachTask_length task items l2 hl2
  · intro hnone hnoacc
    have hattach := attachTask_eq_none task items hnoacc
    refine ⟨?_, fun j hj => takeWhile_getD_pos _ items j hj,
      fun hk => takeWhile_getD_stop _ items hk, by simp⟩
    unfold addTask
    rw [if_neg (fun hany => by
      obtain ⟨it, hmem, hit⟩ := List.any_eq_true.mp hany
      rw [hnone it hmem] at hit
      exact Bool.false_ne_true hit)]
    rw [hattach]

/-- Witness for C6, sorted-insertion branch: two items, the first ordered
before every command and the second before none; a fresh task (window 7,
command "code", unknown to the application registry) is inserted at index 1,
between them, and owns its task. -/
theorem c6_witness :
    addTask (fun _ => none)
      [{ tasks := [], pinned := true, isProgram := false, launchCommand := "",
         label := "menu", icon := "m", beforeCmd := fun _ => true },
       { tasks := [], pinned := true, isProgram := false, launchCommand := "",
         label := "clock", icon := "c", beforeCmd := fun _ => false }]
      { wId := 7, command := "code", program := "Code" } =
      List.insertIdx 1
        { newProgram none { wId := 7, command := "code", program := "Code" }
          with tasks := [7] }
        [{ tasks := [], pinned := true, isProgram := false, launchCommand := "",
           label := "menu", icon := "m", beforeCmd := fun _ => true },
         { tasks := [], pinned := true, isProgram := false, launchCommand := "",
           label := "clock", icon := "c", beforeCmd := fun _ => false }] ∧
      7 ∈ ({ newProgram none { wId := 7, command := "code", program := "Code" }
          with tasks := [7] } : DockItemM).tasks := by
  have h := (c6_addTask (fun _ => none)
    [{ tasks := [], pinned := true, isProgram := false, launchCommand := "",
       label := "menu", icon := "m", beforeCmd := fun _ => true },
     { tasks := [], pinned := true, isProgram := false, launchCommand := "",
       label := "clock", icon := "c", beforeCmd := fun _ => false }]
    { wId := 7, command := "code", program := "Code" } "code" rfl).2.2
    (by
      intro it hmem
      rcases List.mem_cons.mp hmem with rfl | hmem2
      · rfl
      · rcases List.mem_cons.mp hmem2 with rfl | hmem3
        · rfl
        · simp at hmem3)
    (by
      intro it hmem
      rcases List.mem_cons.mp hmem with rfl | hmem2
      · rfl
      · rcases List.mem_cons.mp hmem2 with rfl | hmem3
        · rfl
        · simp at hmem3)
  exact ⟨h.1, h.2.2.2⟩

/-! ### Degenerate configuration: zero items -/

/-- C7: with an empty item collection the minimized and maximized panel
lengths along the magnification axis compute to `0` (not to the spacing
margin), and the pointer-driven layout is NOT safely skipped: its entry
unconditionally writes `items_[0]->left_` (dock_panel.cc:937/939), an
out-of-bounds access on an empty vector, modelled as `none`. -/
theorem c7_empty_items (m M s : ℤ) :
    updateLayoutPointerEntry [] s = none ∧
    minWidthU m s 0 = 0 ∧ maxWidthU m M s 0 = 0 := by
  refine ⟨rfl, rfl, ?_⟩
  simp [maxWidthU, minWidthU, layoutDelta]

/-! ### Pointer-driven layout: order preservation

The development below proves that the leading-edge coordinates produced by
`finalLeft` are strictly increasing in the item index, for every pointer
position — i.e. sorting the items by leading edge returns the insertion
order. Throughout, `D := minSize + itemSpacing` is the center-to-center
distance of the rest layout and `T := parabolicMaxX`. -/

lemma pmx_two_mul (m s : ℤ) :
    2 * parabolicMaxX m s ≤ 5 * (m + s) ∧
    5 * (m + s) ≤ 2 * parabolicMaxX m s + 1 := by
  unfold parabolicMaxX
  omega

lemma pmx_ge_two_D {m s : ℤ} (hm : 1 ≤ m) (hs : 0 ≤ s) :
    2 * (m + s) ≤ parabolicMaxX m s := by
  unfold parabolicMaxX
  omega

lemma pmx_pos {m s : ℤ} (hm : 1 ≤ m) (hs : 0 ≤ s) :
    0 < parabolicMaxX m s := by
  unfold parabolicMaxX
  omega

lemma restLeft_eq (m s : ℤ) : ∀ i : ℕ, restLeft m s i = s / 2 + i * (m + s)
  | 0 => by simp [restLeft]
  | i + 1 => by
    rw [restLeft, restLeft_eq m s i]
    push_cast
    ring

lemma minCenter_eq (m s : ℤ) (i : ℕ) :
    minCenter m s i = s / 2 + m / 2 + i * (m + s) := by
  rw [minCenter, restLeft_eq]
  ring

lemma minWidthU_eq (m s : ℤ) : ∀ n : ℕ, minWidthU m s n = n * (m + s)
  | 0 => by simp [minWidthU]
  | n + 1 => by
    unfold minWidthU
    rw [List.range_succ, List.foldl_append]
    show minWidthU m s n + (m + s) = _
    rw [minWidthU_eq m s n]
    push_cast
    ring

lemma bwdFromEnd_eq (m M s : ℤ) (n : ℕ) :
    ∀ k : ℕ, bwdFromEnd m M s n k =
      maxWidthU m M s n - s / 2 - m - k * (m + s)
  | 0 => by simp [bwdFromEnd]
  | k + 1 => by
    rw [bwdFromEnd, bwdFromEnd_eq m M s n k]
    push_cast
    ring

lemma fwdLeft_eq (m M s p : ℤ) : ∀ i : ℕ,
    fwdLeft m M s p i =
      s / 2 + ∑ j ∈ Finset.range i, (itemSizeAt m M s p j + s)
  | 0 => by simp [fwdLeft]
  | i + 1 => by
    rw [fwdLeft, fwdLeft_eq m M s p i, Finset.sum_range_succ]
    ring

lemma corrDrop_eq (m M s p start : ℤ) (l : ℕ) : ∀ t : ℕ,
    corrDrop m M s p start l t =
      start - ∑ j ∈ Finset.range t, (itemSizeAt m M s p (l - j) + s)
  | 0 => by simp [corrDrop]
  | t + 1 => by
    rw [corrDrop, corrDrop_eq m M s p start l t, Finset.sum_range_succ]
    ring

lemma itemSizeAt_ge_min {m M s p : ℤ} (hm : 1 ≤ m) (hs : 0 ≤ s)
    (hmM : m ≤ M) (i : ℕ) : m ≤ itemSizeAt m M s p i :=
  min_le_parabolic hmM (pmx_pos hm hs) (abs_nonneg _)

lemma itemSizeAt_eq_min {m M s p : ℤ} (hm : 1 ≤ m) (hs : 0 ≤ s)
    (hmM : m ≤ M) (i : ℕ) (hi : parabolicMaxX m s ≤ distTo m s p i) :
    itemSizeAt m M s p i = m :=
  parabolic_eq_min_of_ge hmM (pmx_pos hm hs) hi

lemma layoutDelta_nonneg {m M s : ℤ} (hm : 1 ≤ m) (hs : 0 ≤ s)
    (hmM : m ≤ M) (n : ℕ) : 0 ≤ layoutDelta m M s n := by
  have hT := pmx_pos hm hs
  have h0 := min_le_parabolic (T := parabolicMaxX m s) hmM hT (le_refl 0 |>.trans (by omega : (0:ℤ) ≤ 0))
  have h1 := min_le_parabolic (T := parabolicMaxX m s) (x := m + s) hmM hT (by omega)
  have h2 := min_le_parabolic (T := parabolicMaxX m s) (x := 2 * (m + s)) hmM hT (by omega)
  unfold layoutDelta
  split_ifs <;> omega

/-! Floor-division toolkit over `ℤ` (positive divisor). -/

lemma ediv_add_ediv_le {a b c : ℤ} (hc : 0 < c) : a / c + b / c ≤ (a + b) / c := by
  rw [Int.le_ediv_iff_mul_le hc]
  have ha := Int.emod_nonneg a (ne_of_gt hc)
  have hb := Int.emod_nonneg b (ne_of_gt hc)
  have hda := Int.ediv_add_emod a c
  have hdb := Int.ediv_add_emod b c
  nlinarith

lemma ediv_add_le_add_ediv {a b c : ℤ} (hc : 0 < c) :
    (a + b) / c ≤ a / c + b / c + 1 := by
  have ha := Int.emod_nonneg a (ne_of_gt hc)
  have hb := Int.emod_nonneg b (ne_of_gt hc)
  have ha2 := Int.emod_lt_of_pos a hc
  have hb2 := Int.emod_lt_of_pos b hc
  have hda := Int.ediv_add_emod a c
  have hdb := Int.ediv_add_emod b c
  have : (a + b) / c < a / c + b / c + 2 := by
    rw [Int.ediv_lt_iff_lt_mul hc]
    nlinarith
  omega

lemma ediv_le_ediv_add_mul {a b c n : ℤ} (hc : 0 < c) (h : a ≤ b + n * c) :
    a / c ≤ b / c + n := by
  calc a / c ≤ (b + n * c) / c := Int.ediv_le_ediv hc h
    _ = b / c + n := Int.add_mul_ediv_right b n (ne_of_gt hc)

/-! Characterization of the `(first_update_index, last_update_index)` scan. -/

lemma scanUpd_succ (m s p : ℤ) (n : ℕ) :
    scanUpd m s p (n + 1) = scanStep m s p (scanUpd m s p n) n := by
  unfold scanUpd
  rw [List.range_succ, List.foldl_append]
  rfl

lemma scanUpd_spec (m s p : ℤ) : ∀ n : ℕ,
    ((scanUpd m s p n).1 = none →
      (∀ i, i < n → ¬ distTo m s p i < parabolicMaxX m s) ∧
      (scanUpd m s p n).2 = 0) ∧
    (∀ f₀ : ℕ, (scanUpd m s p n).1 = some f₀ →
      f₀ < n ∧ distTo m s p f₀ < parabolicMaxX m s ∧
      (∀ i, i < f₀ → ¬ distTo m s p i < parabolicMaxX m s) ∧
      f₀ ≤ (scanUpd m s p n).2 ∧ (scanUpd m s p n).2 < n ∧
      distTo m s p (scanUpd m s p n).2 < parabolicMaxX m s ∧
      (∀ i, (scanUpd m s p n).2 < i → i < n →
        ¬ distTo m s p i < parabolicMaxX m s))
  | 0 => by
    constructor
    · intro _
      exact ⟨fun i hi => absurd hi (Nat.not_lt_zero i), rfl⟩
    · intro f₀ h
      exact Option.noConfusion h
  | n + 1 => by
    have ih := scanUpd_spec m s p n
    rw [scanUpd_succ]
    unfold scanStep
    by_cases hA : distTo m s p n < parabolicMaxX m s
    · rw [if_pos hA]
      cases hprev : (scanUpd m s p n).1 with
      | none =>
        dsimp only
        obtain ⟨hall, _⟩ := ih.1 hprev
        constructor
        · intro h
          exact Option.noConfusion h
        · intro f₀ hf
          injection hf with hf
          subst hf
          exact ⟨Nat.lt_succ_self _, hA, hall, le_rfl, Nat.lt_succ_self _,
            hA, fun i h1 h2 => absurd (lt_of_lt_of_le h1 (Nat.lt_succ_iff.mp h2))
              (lt_irrefl _)⟩
      | some f =>
        dsimp only
        obtain ⟨hfn, hAf, hpre, _, _, _, _⟩ := ih.2 f hprev
        constructor
        · intro h
          exact Option.noConfusion h
        · intro f₀ hf
          injection hf with hf
          subst hf
          exact ⟨Nat.lt_succ_of_lt hfn, hAf, hpre, Nat.le_of_lt hfn,
            Nat.lt_succ_self _, hA,
            fun i h1 h2 => absurd (lt_of_lt_of_le h1 (Nat.lt_succ_iff.mp h2))
              (lt_irrefl _)⟩
    · rw [if_neg hA]
      constructor
      · intro h
        obtain ⟨hall, hl⟩ := ih.1 h
        refine ⟨fun i hi => ?_, hl⟩
        rcases Nat.lt_succ_iff_lt_or_eq.mp hi with hi2 | rfl
        · exact hall i hi2
        · exact hA
      · intro f₀ hf
        obtain ⟨hfn, hAf, hpre, hfl, hln, hAl, hpost⟩ := ih.2 f₀ hf
        refine ⟨Nat.lt_succ_of_lt hfn, hAf, hpre, hfl, Nat.lt_succ_of_lt hln,
          hAl, fun i h1 h2 => ?_⟩
        rcases Nat.lt_succ_iff_lt_or_eq.mp h2 with hi2 | rfl
        · exact hpost i h1 hi2
        · exact hA

/-! The bulge bound: the total magnification of the affected items short of
the last one never exceeds `layoutDelta + (minSize + itemSpacing) - 1`. The
two lemmas below are the four- and five-item cases, with the pointer offset
`q` measured from the first affected item's rest center. -/

lemma bulge_k3 (G D T q : ℤ) (hG : 0 ≤ G) (hD : 1 ≤ D)
    (h2T : 2 * T ≤ 5 * D) (h2T' : 5 * D ≤ 2 * T + 1)
    (hqlo : T - D ≤ q) (hqhi : q ≤ 3 * D - T) :
    (G - q * q * G / (T * T)) + (G - (q - D) * (q - D) * G / (T * T))
    ≤ 5 * G - 2 * (D * D * G / (T * T))
        - 2 * ((2 * D) * (2 * D) * G / (T * T)) + D - 1 := by
  have hD1 : D = 1 := by omega
  subst hD1
  have hT2 : T = 2 := by omega
  subst hT2
  have n1 : (0:ℤ) ≤ G / 4 := Int.ediv_nonneg hG (by norm_num)
  have hq : q = 1 := by omega
  subst hq
  norm_num
  omega

lemma bulge_k4 (G D T q : ℤ) (hG : 0 ≤ G) (hD : 1 ≤ D)
    (h2T : 2 * T ≤ 5 * D) (h2T' : 5 * D ≤ 2 * T + 1)
    (hqlo : T - D ≤ q) (hqhi : q ≤ 4 * D - T) :
    (G - q * q * G / (T * T)) + (G - (q - D) * (q - D) * G / (T * T))
      + (G - (q - 2 * D) * (q - 2 * D) * G / (T * T))
    ≤ 5 * G - 2 * (D * D * G / (T * T))
        - 2 * ((2 * D) * (2 * D) * G / (T * T)) + D - 1 := by
  have hT : 2 ≤ T := by omega
  have hQ : (0 : ℤ) < T * T := by positivity
  rcases lt_or_le D 3 with hDsmall | hD3
  · interval_cases D
    · have hT2 : T = 2 := by omega
      subst hT2
      have n1 : (0:ℤ) ≤ G / 4 := Int.ediv_nonneg hG (by norm_num)
      have hq : q = 1 ∨ q = 2 := by omega
      rcases hq with rfl | rfl <;> norm_num <;> omega
    · have hT5 : T = 5 := by omega
      subst hT5
      have n1 : (0:ℤ) ≤ G / 25 := Int.ediv_nonneg hG (by norm_num)
      have n2 : (0:ℤ) ≤ 4 * G / 25 := Int.ediv_nonneg (by linarith) (by norm_num)
      have n3 : (0:ℤ) ≤ 9 * G / 25 := Int.ediv_nonneg (by linarith) (by norm_num)
      have n4 : (0:ℤ) ≤ 16 * G / 25 := Int.ediv_nonneg (by linarith) (by norm_num)
      have hq : q = 3 := by omega
      subst hq
      norm_num
      omega
  · have hfa : 0 ≤ q - (T - D) := by omega
    have hfb : 0 ≤ q - (3 * D - T) := by omega
    have hfc : 0 ≤ T - 2 * D := by omega
    have hfd : 0 ≤ 5 * T - 2 * D := by omega
    have hP : 0 ≤ 3 * q * q - 6 * q * D - 5 * (D * D) + 2 * (T * T) := by
      nlinarith [mul_nonneg hfa hfb, mul_nonneg hfc hfd]
    have h3 : D * D * G + D * D * G + ((2 * D) * (2 * D) * G
        + (2 * D) * (2 * D) * G) ≤
        (q * q * G + (q - D) * (q - D) * G + (q - 2 * D) * (q - 2 * D) * G)
          + 2 * G * (T * T) := by
      nlinarith [mul_nonneg hP hG]
    have h4 : (D * D * G + D * D * G + ((2 * D) * (2 * D) * G
        + (2 * D) * (2 * D) * G)) / (T * T) ≤
        (q * q * G + (q - D) * (q - D) * G
          + (q - 2 * D) * (q - 2 * D) * G) / (T * T) + 2 * G :=
      ediv_le_ediv_add_mul hQ h3
    have h1a : D * D * G / (T * T) + D * D * G / (T * T) ≤
        (D * D * G + D * D * G) / (T * T) := ediv_add_ediv_le hQ
    have h1b : (2 * D) * (2 * D) * G / (T * T)
        + (2 * D) * (2 * D) * G / (T * T) ≤
        ((2 * D) * (2 * D) * G + (2 * D) * (2 * D) * G) / (T * T) :=
      ediv_add_ediv_le hQ
    have h1c : (D * D * G + D * D * G) / (T * T)
        + ((2 * D) * (2 * D) * G + (2 * D) * (2 * D) * G) / (T * T) ≤
        (D * D * G + D * D * G + ((2 * D) * (2 * D) * G
          + (2 * D) * (2 * D) * G)) / (T * T) := ediv_add_ediv_le hQ
    have h2a : (q * q * G + (q - D) * (q - D) * G) / (T * T) ≤
        q * q * G / (T * T) + (q - D) * (q - D) * G / (T * T) + 1 :=
      ediv_add_le_add_ediv hQ
    have h2b : (q * q * G + (q - D) * (q - D) * G
        + (q - 2 * D) * (q - 2 * D) * G) / (T * T) ≤
        (q * q * G + (q - D) * (q - D) * G) / (T * T)
          + (q - 2 * D) * (q - 2 * D) * G / (T * T) + 1 :=
      ediv_add_le_add_ediv hQ
    linarith

lemma bulge_k5 (G D T q : ℤ) (hG : 0 ≤ G) (hD : 1 ≤ D)
    (h2T : 2 * T ≤ 5 * D) (h2T' : 5 * D ≤ 2 * T + 1)
    (hqlo : T - D ≤ q) (hqhi : q ≤ 5 * D - T) :
    (G - q * q * G / (T * T)) + (G - (q - D) * (q - D) * G / (T * T))
      + (G - (q - 2 * D) * (q - 2 * D) * G / (T * T))
      + (G - (q - 3 * D) * (q - 3 * D) * G / (T * T))
    ≤ 5 * G - 2 * (D * D * G / (T * T))
        - 2 * ((2 * D) * (2 * D) * G / (T * T)) + D - 1 := by
  have hT : 2 ≤ T := by omega
  have hQ : (0 : ℤ) < T * T := by positivity
  rcases lt_or_le D 4 with hDsmall | hD4
  · interval_cases D
    · have hT2 : T = 2 := by omega
      subst hT2
      have n1 : (0:ℤ) ≤ G / 4 := Int.ediv_nonneg hG (by norm_num)
      have hq : q = 1 ∨ q = 2 ∨ q = 3 := by omega
      rcases hq with rfl | rfl | rfl <;> norm_num <;> omega
    · have hT5 : T = 5 := by omega
      subst hT5
      have n1 : (0:ℤ) ≤ G / 25 := Int.ediv_nonneg hG (by norm_num)
      have n2 : (0:ℤ) ≤ 4 * G / 25 := Int.ediv_nonneg (by linarith) (by norm_num)
      have n3 : (0:ℤ) ≤ 9 * G / 25 := Int.ediv_nonneg (by linarith) (by norm_num)
      have n4 : (0:ℤ) ≤ 16 * G / 25 := Int.ediv_nonneg (by linarith) (by norm_num)
      have hq : q = 3 ∨ q = 4 ∨ q = 5 := by omega
      rcases hq with rfl | rfl | rfl <;> norm_num <;> omega
    · have hT7 : T = 7 := by omega
      subst hT7
      have n1 : (0:ℤ) ≤ G / 49 := Int.ediv_nonneg hG (by norm_num)
      have n2 : (0:ℤ) ≤ 4 * G / 49 := Int.ediv_nonneg (by linarith) (by norm_num)
      have n3 : (0:ℤ) ≤ 9 * G / 49 := Int.ediv_nonneg (by linarith) (by norm_num)
      have n4 : (0:ℤ) ≤ 16 * G / 49 := Int.ediv_nonneg (by linarith) (by norm_num)
      have n5 : (0:ℤ) ≤ 25 * G / 49 := Int.ediv_nonneg (by linarith) (by norm_num)
      have n6 : (0:ℤ) ≤ 36 * G / 49 := Int.ediv_nonneg (by linarith) (by norm_num)
      have n7 : (0:ℤ) ≤ 64 * G / 49 := Int.ediv_nonneg (by linarith) (by norm_num)
      have hq : q = 4 ∨ q = 5 ∨ q = 6 ∨ q = 7 ∨ q = 8 := by omega
      rcases hq with rfl | rfl | rfl | rfl | rfl <;> norm_num <;> omega
  · have h5D : 5 * (D * D) ≤ T * T := by
      have hm : (5 * D - 1) * (5 * D - 1) ≤ (2 * T) * (2 * T) :=
        mul_self_le_mul_self (by omega) (by omega)
      nlinarith [mul_nonneg (by omega : (0:ℤ) ≤ D) (by omega : (0:ℤ) ≤ D - 2)]
    have hP : 10 * (D * D) ≤
        (q * q + (q - D) * (q - D) + (q - 2 * D) * (q - 2 * D)
          + (q - 3 * D) * (q - 3 * D)) + T * T := by
      nlinarith [sq_nonneg (2 * q - 3 * D)]
    have h3 : D * D * G + D * D * G + ((2 * D) * (2 * D) * G
        + (2 * D) * (2 * D) * G) ≤
        (q * q * G + (q - D) * (q - D) * G + (q - 2 * D) * (q - 2 * D) * G
          + (q - 3 * D) * (q - 3 * D) * G) + G * (T * T) := by
      nlinarith [mul_nonneg (by linarith [hP] :
        (0:ℤ) ≤ (q * q + (q - D) * (q - D) + (q - 2 * D) * (q - 2 * D)
          + (q - 3 * D) * (q - 3 * D)) + T * T - 10 * (D * D)) hG]
    have h4 : (D * D * G + D * D * G + ((2 * D) * (2 * D) * G
        + (2 * D) * (2 * D) * G)) / (T * T) ≤
        (q * q * G + (q - D) * (q - D) * G + (q - 2 * D) * (q - 2 * D) * G
          + (q - 3 * D) * (q - 3 * D) * G) / (T * T) + G := by
      have h3' : D * D * G + D * D * G + ((2 * D) * (2 * D) * G
          + (2 * D) * (2 * D) * G) ≤
          (q * q * G + (q - D) * (q - D) * G + (q - 2 * D) * (q - 2 * D) * G
            + (q - 3 * D) * (q - 3 * D) * G) + 1 * G * (T * T) := by
        linarith [h3]
      have h4' := ediv_le_ediv_add_mul hQ h3'
      linarith [h4']
    have h1a : D * D * G / (T * T) + D * D * G / (T * T) ≤
        (D * D * G + D * D * G) / (T * T) := ediv_add_ediv_le hQ
    have h1b : (2 * D) * (2 * D) * G / (T * T)
        + (2 * D) * (2 * D) * G / (T * T) ≤
        ((2 * D) * (2 * D) * G + (2 * D) * (2 * D) * G) / (T * T) :=
      ediv_add_ediv_le hQ
    have h1c : (D * D * G + D * D * G) / (T * T)
        + ((2 * D) * (2 * D) * G + (2 * D) * (2 * D) * G) / (T * T) ≤
        (D * D * G + D * D * G + ((2 * D) * (2 * D) * G
          + (2 * D) * (2 * D) * G)) / (T * T) := ediv_add_ediv_le hQ
    have h2a : (q * q * G + (q - D) * (q - D) * G) / (T * T) ≤
        q * q * G / (T * T) + (q - D) * (q - D) * G / (T * T) + 1 :=
      ediv_add_le_add_ediv hQ
    have h2b : (q * q * G + (q - D) * (q - D) * G
        + (q - 2 * D) * (q - 2 * D) * G) / (T * T) ≤
        (q * q * G + (q - D) * (q - D) * G) / (T * T)
          + (q - 2 * D) * (q - 2 * D) * G / (T * T) + 1 :=
      ediv_add_le_add_ediv hQ
    have h2c : (q * q * G + (q - D) * (q - D) * G
        + (q - 2 * D) * (q - 2 * D) * G
        + (q - 3 * D) * (q - 3 * D) * G) / (T * T) ≤
        (q * q * G + (q - D) * (q - D) * G
          + (q - 2 * D) * (q - 2 * D) * G) / (T * T)
          + (q - 3 * D) * (q - 3 * D) * G / (T * T) + 1 :=
      ediv_add_le_add_ediv hQ
    linarith

lemma minCenter_shift (m s : ℤ) (f₀ j : ℕ) :
    minCenter m s (f₀ + j) = minCenter m s f₀ + (j : ℤ) * (m + s) := by
  rw [minCenter_eq, minCenter_eq]
  push_cast
  ring

lemma distTo_shift (m s p : ℤ) (f₀ j : ℕ) :
    distTo m s p (f₀ + j) =
      |(p - minCenter m s f₀) - (j : ℤ) * (m + s)| := by
  unfold distTo
  rw [minCenter_shift]
  rw [show minCenter m s f₀ + (j : ℤ) * (m + s) - p =
    -((p - minCenter m s f₀) - (j : ℤ) * (m + s)) by ring, abs_neg]

lemma parabolic_abs_formula {m M T q' : ℤ} (hlo : -T ≤ q') (hhi : q' ≤ T) :
    parabolic m M T |q'| = M - q' * q' * (M - m) / (T * T) := by
  rw [parabolic_of_le (abs_le.mpr ⟨hlo, hhi⟩), abs_mul_abs_self]

lemma layoutDelta_eq5 {m M s : ℤ} (hm : 1 ≤ m) (hs : 0 ≤ s) (hmM : m ≤ M)
    {n : ℕ} (h5 : 5 ≤ n) :
    layoutDelta m M s n =
      5 * (M - m)
        - 2 * ((m + s) * (m + s) * (M - m)
          / (parabolicMaxX m s * parabolicMaxX m s))
        - 2 * ((2 * (m + s)) * (2 * (m + s)) * (M - m)
          / (parabolicMaxX m s * parabolicMaxX m s)) := by
  have hT := pmx_pos hm hs
  have h2D := pmx_ge_two_D hm hs
  unfold layoutDelta
  rw [if_pos h5, parabolic_zero hT,
    parabolic_of_le (by omega : m + s ≤ parabolicMaxX m s),
    parabolic_of_le (by omega : 2 * (m + s) ≤ parabolicMaxX m s)]
  ring

/-- The junction inequality: in the pointer-driven layout with affected
window `[f₀, l]` not touching index 0 and not reaching the last item, the
forward-pass position of item `l` stays strictly left of the anchored
position of item `l + 1`. -/
lemma junction_lt (m M s p : ℤ) (n f₀ l : ℕ) (hm : 1 ≤ m) (hs : 0 ≤ s)
    (hmM : m ≤ M)
    (hf₀1 : 1 ≤ f₀) (hf₀l : f₀ ≤ l) (hln : l + 1 < n)
    (hAf : distTo m s p f₀ < parabolicMaxX m s)
    (hAl : distTo m s p l < parabolicMaxX m s)
    (hprev : ¬ distTo m s p (f₀ - 1) < parabolicMaxX m s)
    (hnext : ¬ distTo m s p (l + 1) < parabolicMaxX m s)
    (hpre : ∀ i, i < f₀ → ¬ distTo m s p i < parabolicMaxX m s) :
    fwdLeft m M s p l < bwdLeft m M s n (l + 1) := by
  have h2T := pmx_two_mul m s
  have hTD := pmx_ge_two_D hm hs
  have hT := pmx_pos hm hs
  set T := parabolicMaxX m s with hTdef
  set q := p - minCenter m s f₀ with hqdef
  set k := l - f₀ + 1 with hkdef
  have hlf : l = f₀ + (k - 1) := by omega
  have hl1 : l + 1 = f₀ + k := by omega
  -- distance facts in terms of q
  have hdf : distTo m s p f₀ = |q| := by
    have := distTo_shift m s p f₀ 0
    simpa using this
  have hmc1 : minCenter m s (f₀ - 1) = minCenter m s f₀ - (m + s) := by
    rw [minCenter_eq, minCenter_eq]
    have hc : ((f₀ - 1 : ℕ) : ℤ) = (f₀ : ℤ) - 1 := by omega
    rw [hc]
    ring
  have hdprev : distTo m s p (f₀ - 1) = |q + (m + s)| := by
    unfold distTo
    rw [hmc1, show minCenter m s f₀ - (m + s) - p = -(q + (m + s)) from by
      rw [hqdef]; ring, abs_neg]
  have hdl : distTo m s p l = |q - ((k : ℤ) - 1) * (m + s)| := by
    have h := distTo_shift m s p f₀ (k - 1)
    rw [← hlf] at h
    rw [h]
    congr 1
    have : ((k - 1 : ℕ) : ℤ) = (k : ℤ) - 1 := by omega
    rw [this]
  have hdnext : distTo m s p (l + 1) = |q - (k : ℤ) * (m + s)| := by
    have h := distTo_shift m s p f₀ k
    rw [← hl1] at h
    rw [h]
  -- linear bounds on q
  rw [hdf] at hAf
  obtain ⟨hqT1, hqT2⟩ := abs_lt.mp hAf
  rw [hdprev] at hprev
  push_neg at hprev
  have hqlo : T - (m + s) ≤ q := by
    rcases le_abs.mp hprev with h | h
    · omega
    · omega
  rw [hdnext] at hnext
  push_neg at hnext
  have hkD0 : 0 ≤ (k : ℤ) * (m + s) :=
    mul_nonneg (by positivity) (by omega)
  have hqhi : q ≤ (k : ℤ) * (m + s) - T := by
    rcases le_abs.mp hnext with h | h
    · linarith
    · linarith
  rw [hdl] at hAl
  obtain ⟨hAl1, hAl2⟩ := abs_lt.mp hAl
  -- k is between 3 and 5
  have hk1 : 1 ≤ k := by omega
  have hk5 : k ≤ 5 := by
    by_contra hgt
    push_neg at hgt
    have h6 : (6 : ℤ) ≤ (k : ℤ) := by exact_mod_cast hgt
    have hge : 5 * (m + s) ≤ ((k : ℤ) - 1) * (m + s) :=
      mul_le_mul_of_nonneg_right (by omega) (by omega)
    linarith
  -- the forward position of item l
  have hsizes_pre : ∀ j ∈ Finset.range f₀,
      itemSizeAt m M s p j + s = m + s := by
    intro j hj
    rw [itemSizeAt_eq_min hm hs hmM j (not_lt.mp (hpre j (Finset.mem_range.mp hj)))]
  have hfwd : fwdLeft m M s p l = s / 2 + (f₀ : ℤ) * (m + s)
      + ∑ j ∈ Finset.range (k - 1),
          (parabolic m M T |q - (j : ℤ) * (m + s)| + s) := by
    rw [fwdLeft_eq, Finset.range_eq_Ico,
      ← Finset.sum_Ico_consecutive _ (Nat.zero_le f₀) (by omega : f₀ ≤ l),
      ← Finset.range_eq_Ico, Finset.sum_congr rfl hsizes_pre,
      Finset.sum_const, Finset.card_range, Finset.sum_Ico_eq_sum_range]
    have hsum : ∀ j ∈ Finset.range (l - f₀),
        itemSizeAt m M s p (f₀ + j) + s =
          parabolic m M T |q - (j : ℤ) * (m + s)| + s := by
      intro j _
      unfold itemSizeAt
      rw [distTo_shift m s p f₀ j]
    rw [Finset.sum_congr rfl hsum]
    have hkl : l - f₀ = k - 1 := by omega
    rw [hkl]
    push_cast
    ring
  -- the anchored position of item l + 1
  have hbwd : bwdLeft m M s n (l + 1) =
      minWidthU m s n + layoutDelta m M s n - s / 2 - m
        - ((n : ℤ) - 2 - (l : ℤ)) * (m + s) := by
    unfold bwdLeft
    rw [bwdFromEnd_eq]
    unfold maxWidthU
    have : ((n - 1 - (l + 1) : ℕ) : ℤ) = (n : ℤ) - 2 - (l : ℤ) := by omega
    rw [this]
  have hn5 : 5 ≤ n := by
    have hk3 : 3 ≤ k := by
      by_contra hlt
      push_neg at hlt
      interval_cases k <;> omega
    omega
  rw [hfwd, hbwd, minWidthU_eq, layoutDelta_eq5 hm hs hmM hn5, ← hTdef]
  have hs2 : 2 * (s / 2) ≤ s := by omega
  -- expand the bulge sum for each possible k and apply the bulge bound
  have hG : (0 : ℤ) ≤ M - m := by omega
  have hD1 : (1 : ℤ) ≤ m + s := by omega
  interval_cases k
  · -- k = 1: contradicts the window bracketing
    exfalso
    omega
  · -- k = 2: contradicts the window bracketing
    exfalso
    omega
  · -- k = 3
    rw [Finset.sum_range_succ, Finset.sum_range_succ, Finset.sum_range_zero]
    have e0 : parabolic m M T |q - (0 : ℤ) * (m + s)| =
        M - q * q * (M - m) / (T * T) := by
      rw [show q - (0 : ℤ) * (m + s) = q from by ring]
      exact parabolic_abs_formula (by omega) (by omega)
    have e1 : parabolic m M T |q - (1 : ℤ) * (m + s)| =
        M - (q - (m + s)) * (q - (m + s)) * (M - m) / (T * T) := by
      rw [show q - (1 : ℤ) * (m + s) = q - (m + s) from by ring]
      exact parabolic_abs_formula (by omega) (by omega)
    push_cast
    rw [e0, e1]
    have hb := bulge_k3 (M - m) (m + s) T q hG hD1 h2T.1 h2T.2
      (by omega) (by omega)
    have hprod : (l : ℤ) * (m + s) = (f₀ : ℤ) * (m + s) + 2 * (m + s) := by
      have hlz : (l : ℤ) = (f₀ : ℤ) + 2 := by omega
      rw [hlz]
      ring
    linarith [hb, hprod]
  · -- k = 4
    rw [Finset.sum_range_succ, Finset.sum_range_succ, Finset.sum_range_succ,
      Finset.sum_range_zero]
    have e0 : parabolic m M T |q - (0 : ℤ) * (m + s)| =
        M - q * q * (M - m) / (T * T) := by
      rw [show q - (0 : ℤ) * (m + s) = q from by ring]
      exact parabolic_abs_formula (by omega) (by omega)
    have e1 : parabolic m M T |q - (1 : ℤ) * (m + s)| =
        M - (q - (m + s)) * (q - (m + s)) * (M - m) / (T * T) := by
      rw [show q - (1 : ℤ) * (m + s) = q - (m + s) from by ring]
      exact parabolic_abs_formula (by omega) (by omega)
    have e2 : parabolic m M T |q - (2 : ℤ) * (m + s)| =
        M - (q - 2 * (m + s)) * (q - 2 * (m + s)) * (M - m) / (T * T) := by
      rw [show q - (2 : ℤ) * (m + s) = q - 2 * (m + s) from by ring]
      exact parabolic_abs_formula (by omega) (by omega)
    push_cast
    rw [e0, e1, e2]
    have hb := bulge_k4 (M - m) (m + s) T q hG hD1 h2T.1 h2T.2
      (by omega) (by omega)
    have hprod : (l : ℤ) * (m + s) = (f₀ : ℤ) * (m + s) + 3 * (m + s) := by
      have hlz : (l : ℤ) = (f₀ : ℤ) + 3 := by omega
      rw [hlz]
      ring
    linarith [hb, hprod]
  · -- k = 5
    rw [Finset.sum_range_succ, Finset.sum_range_succ, Finset.sum_range_succ,
      Finset.sum_range_succ, Finset.sum_range_zero]
    have e0 : parabolic m M T |q - (0 : ℤ) * (m + s)| =
        M - q * q * (M - m) / (T * T) := by
      rw [show q - (0 : ℤ) * (m + s) = q from by ring]
      exact parabolic_abs_formula (by omega) (by omega)
    have e1 : parabolic m M T |q - (1 : ℤ) * (m + s)| =
        M - (q - (m + s)) * (q - (m + s)) * (M - m) / (T * T) := by
      rw [show q - (1 : ℤ) * (m + s) = q - (m + s) from by ring]
      exact parabolic_abs_formula (by omega) (by omega)
    have e2 : parabolic m M T |q - (2 : ℤ) * (m + s)| =
        M - (q - 2 * (m + s)) * (q - 2 * (m + s)) * (M - m) / (T * T) := by
      rw [show q - (2 : ℤ) * (m + s) = q - 2 * (m + s) from by ring]
      exact parabolic_abs_formula (by omega) (by omega)
    have e3 : parabolic m M T |q - (3 : ℤ) * (m + s)| =
        M - (q - 3 * (m + s)) * (q - 3 * (m + s)) * (M - m) / (T * T) := by
      rw [show q - (3 : ℤ) * (m + s) = q - 3 * (m + s) from by ring]
      exact parabolic_abs_formula (by omega) (by omega)
    push_cast
    rw [e0, e1, e2, e3]
    have hb := bulge_k5 (M - m) (m + s) T q hG hD1 h2T.1 h2T.2
      (by omega) (by omega)
    have hprod : (l : ℤ) * (m + s) = (f₀ : ℤ) * (m + s) + 4 * (m + s) := by
      have hlz : (l : ℤ) = (f₀ : ℤ) + 4 := by omega
      rw [hlz]
      ring
    linarith [hb, hprod]

lemma fwdLeft_strict {m M s p : ℤ} (hm : 1 ≤ m) (hs : 0 ≤ s) (hmM : m ≤ M)
    (i : ℕ) : fwdLeft m M s p i < fwdLeft m M s p (i + 1) := by
  have hsz := itemSizeAt_ge_min (p := p) hm hs hmM i
  show fwdLeft m M s p i < fwdLeft m M s p i + itemSizeAt m M s p i + s
  linarith

lemma bwdLeft_strict (m M s : ℤ) (hm : 1 ≤ m) (hs : 0 ≤ s) (n i : ℕ)
    (h : i + 1 ≤ n - 1) : bwdLeft m M s n i < bwdLeft m M s n (i + 1) := by
  unfold bwdLeft
  rw [bwdFromEnd_eq, bwdFromEnd_eq]
  have hcast : ((n - 1 - i : ℕ) : ℤ) = ((n - 1 - (i + 1) : ℕ) : ℤ) + 1 := by
    omega
  rw [hcast]
  have hprod : (((n - 1 - (i + 1) : ℕ) : ℤ) + 1) * (m + s) =
      ((n - 1 - (i + 1) : ℕ) : ℤ) * (m + s) + (m + s) := by ring
  linarith

lemma corrDrop_strict {m M s p : ℤ} (hm : 1 ≤ m) (hs : 0 ≤ s) (hmM : m ≤ M)
    (start : ℤ) (l t : ℕ) :
    corrDrop m M s p start l (t + 1) < corrDrop m M s p start l t := by
  have hsz := itemSizeAt_ge_min (p := p) hm hs hmM (l - t)
  show corrDrop m M s p start l t - itemSizeAt m M s p (l - t) - s < _
  linarith

/-- The junction inequality when no item is affected: item 0 keeps the
forward position `itemSpacing/2` and item 1 is anchored from the far edge. -/
lemma junction_none_lt (m M s p : ℤ) (n : ℕ) (hm : 1 ≤ m) (hs : 0 ≤ s)
    (hmM : m ≤ M) (hn : 2 ≤ n) :
    fwdLeft m M s p 0 < bwdLeft m M s n 1 := by
  show s / 2 < bwdLeft m M s n 1
  unfold bwdLeft
  rw [bwdFromEnd_eq]
  unfold maxWidthU
  rw [minWidthU_eq]
  have hΔ := layoutDelta_nonneg (s := s) hm hs hmM n
  have hcast : ((n - 1 - 1 : ℕ) : ℤ) = (n : ℤ) - 2 := by omega
  rw [hcast]
  have h2 : 2 * (s / 2) ≤ s := by omega
  have hprod : ((n : ℤ) - 2) * (m + s) = (n : ℤ) * (m + s) - 2 * (m + s) := by
    ring
  linarith

lemma finalLeft_def (m M s p : ℤ) (n i : ℕ) :
    finalLeft m M s p n i =
      if (scanUpd m s p n).1 = some 0 ∧ (scanUpd m s p n).2 < n - 1 then
        if i ≤ (scanUpd m s p n).2 then
          corrDrop m M s p (bwdLeft m M s n ((scanUpd m s p n).2 + 1))
            (scanUpd m s p n).2 ((scanUpd m s p n).2 + 1 - i)
        else bwdLeft m M s n i
      else
        if i ≤ (scanUpd m s p n).2 then fwdLeft m M s p i
        else bwdLeft m M s n i := rfl

lemma finalLeft_adj (m M s p : ℤ) (n : ℕ) (hm : 1 ≤ m) (hs : 0 ≤ s)
    (hmM : m ≤ M) (i : ℕ) (hi : i + 1 < n) :
    finalLeft m M s p n i < finalLeft m M s p n (i + 1) := by
  have hspec := scanUpd_spec m s p n
  rw [finalLeft_def, finalLeft_def]
  by_cases hcorr : (scanUpd m s p n).1 = some 0 ∧ (scanUpd m s p n).2 < n - 1
  · rw [if_pos hcorr, if_pos hcorr]
    by_cases hi1 : i + 1 ≤ (scanUpd m s p n).2
    · rw [if_pos hi1, if_pos (by omega)]
      have hstep : (scanUpd m s p n).2 + 1 - i =
          ((scanUpd m s p n).2 + 1 - (i + 1)) + 1 := by omega
      rw [hstep]
      exact corrDrop_strict hm hs hmM _ _ _
    · by_cases hi0 : i ≤ (scanUpd m s p n).2
      · -- i = l: the corrected position of l sits left of the anchor l+1
        rw [if_pos hi0, if_neg hi1]
        have hieq : i = (scanUpd m s p n).2 := by omega
        subst hieq
        rw [show (scanUpd m s p n).2 + 1 - (scanUpd m s p n).2 = 1 from by
          omega]
        have := corrDrop_strict (p := p) hm hs hmM
          (bwdLeft m M s n ((scanUpd m s p n).2 + 1)) (scanUpd m s p n).2 0
        simpa [corrDrop] using this
      · rw [if_neg hi0, if_neg hi1]
        exact bwdLeft_strict m M s hm hs n i (by omega)
  · rw [if_neg hcorr, if_neg hcorr]
    by_cases hi1 : i + 1 ≤ (scanUpd m s p n).2
    · rw [if_pos hi1, if_pos (by omega)]
      exact fwdLeft_strict hm hs hmM i
    · by_cases hi0 : i ≤ (scanUpd m s p n).2
      · -- the junction: i = last_update_index
        rw [if_pos hi0, if_neg hi1]
        have hieq : i = (scanUpd m s p n).2 := by omega
        cases hfst : (scanUpd m s p n).1 with
        | none =>
          obtain ⟨_, hl0⟩ := hspec.1 hfst
          rw [hieq, hl0]
          exact junction_none_lt m M s p n hm hs hmM (by omega)
        | some f₀ =>
          obtain ⟨hfn, hAf, hpre, hfl, hln, hAl, hpost⟩ := hspec.2 f₀ hfst
          rcases Nat.eq_zero_or_pos f₀ with rfl | hf₀1
          · exfalso
            exact hcorr ⟨hfst, by omega⟩
          · rw [hieq]
            exact junction_lt m M s p n f₀ (scanUpd m s p n).2 hm hs hmM hf₀1
              hfl (by omega) hAf hAl
              (hpre (f₀ - 1) (by omega))
              (hpost ((scanUpd m s p n).2 + 1) (by omega) (by omega))
              hpre
      · rw [if_neg hi0, if_neg hi1]
        exact bwdLeft_strict m M s hm hs n i (by omega)

/-- C4: order preservation under magnification. For every non-empty item
list and every pointer position, after the pointer-driven layout (forward
pass, backward anchoring pass, and correction pass) the leading-edge
coordinates along the magnification axis are strictly increasing in the item
index — so the sequence of item indices sorted by leading edge coordinate is
exactly the ItemCollection's insertion order `0, 1, …, n-1`, and item order
never changes due to magnification. (`left_` for a horizontal panel; the
vertical branch of the source is textually identical with `top_`.) -/
theorem c4_order_preservation (m M s p : ℤ) (n : ℕ) (hm : 1 ≤ m)
    (hs : 0 ≤ s) (hmM : m ≤ M) (hn : 1 ≤ n) :
    ∀ i j : ℕ, i < j → j < n → finalLeft m M s p n i < finalLeft m M s p n j := by
  intro i j
  induction j with
  | zero => omega
  | succ j ih =>
    intro hij hjn
    rcases Nat.lt_succ_iff_lt_or_eq.mp hij with h | rfl
    · exact lt_trans (ih h (by omega)) (finalLeft_adj m M s p n hm hs hmM j hjn)
    · exact finalLeft_adj m M s p n hm hs hmM i hjn

/-- Witness for C4: three 48/64 items with spacing 24 and the pointer at the
first item's center; the three final leading edges are strictly increasing
(indices 0 < 1 and 1 < 2). -/
theorem c4_witness :
    finalLeft 48 64 24 36 3 0 < finalLeft 48 64 24 36 3 1 ∧
    finalLeft 48 64 24 36 3 1 < finalLeft 48 64 24 36 3 2 :=
  ⟨c4_order_preservation 48 64 24 36 3 (by decide) (by decide) (by decide)
     (by decide) 0 1 (by decide) (by decide),
   c4_order_preservation 48 64 24 36 3 (by decide) (by decide) (by decide)
     (by decide) 1 2 (by decide) (by decide)⟩

end ksmoothdock
